import Mathlib

/-!
Verification of the `app_error` JavaScript library (`src/lib/index.js`)
via a shallow embedding in Lean 4.

The embedding models:
  * `JSVal` — the JavaScript values that flow through the library
    (payloads, extra attributes, arguments to `addStatus`);
  * `AppStatus` — the status-accumulator object and its operations
    (`addError`, `addValue`, `addStatus`, `clearErrors`, `getValue`,
    `dedup`, `getExtraAttrs`, ...);
  * `AppLogger` — the verbosity-gated logger (`getVerbose`, `setVerbose`,
    `v1`, `v2`, `v3`, `ifVerbose`), where a call is modelled by the
    decision it makes (throw / emit / stay silent) rather than by the
    bytes written to the diagnostic stream;
  * the stack-frame helpers `numFramesInThisModule` and the frame
    selection performed by `adorn`, over an explicit list of call frames
    (deepest frame first, as produced by the `callsite` package).

Throwing JavaScript code is modelled with `Except String`; the thrown
message is the same string the source builds.
-/

/-- A JavaScript value, as far as this library inspects values:
`undefined`, `null`, booleans, numbers (the library only compares and
adds integers), strings, arrays, plain objects, and objects constructed
by `new AppStatus(...)` (the only class the library tests with
`instanceof`).  Object contents are insertion-ordered key/value lists,
mirroring JavaScript property order. -/
inductive JSVal where
  | undef : JSVal
  | null : JSVal
  | bool : Bool → JSVal
  | num : Int → JSVal
  | str : String → JSVal
  | arr : List JSVal → JSVal
  | obj : List (String × JSVal) → JSVal
  | statusObj : List (String × JSVal) → JSVal

/-- `v === undefined` as the source tests it. -/
def JSVal.isUndef : JSVal → Bool
  | .undef => true
  | _ => false

/-- JavaScript truthiness of a value (`if (v) ...`).  `undefined` and
`null` are falsy, `0` is falsy, the empty string is falsy, every array
or object is truthy.  (NaN does not arise in the modelled code.) -/
def jsTruthy : JSVal → Bool
  | .undef => false
  | .null => false
  | .bool b => b
  | .num n => decide (n ≠ 0)
  | .str s => decide (s ≠ "")
  | .arr _ => true
  | .obj _ => true
  | .statusObj _ => true

/-- The JavaScript prefix operator `!`, which yields a boolean. -/
def jsNot (v : JSVal) : JSVal := .bool (! jsTruthy v)

/-- `v instanceof AppStatus`: true exactly for objects built by the
`AppStatus` constructor. -/
def instanceofAppStatus : JSVal → Bool
  | .statusObj _ => true
  | _ => false

/-- The state of an `AppStatus` object (`src/lib/index.js`, class
`AppStatus`).  The five named fields are the ones its constructor
assigns, in property-insertion order `_info`, `warnings`, `errors`,
`lastError`, `value`; `extra` holds the dynamically assigned
caller-chosen properties (`status.foo = ...`), in insertion order.
Entries of the three message lists are already-adorned strings: the
call-site stamping itself is modelled separately (see
`numFramesInThisModule` and `resolveCallSite`). -/
structure AppStatus where
  _info : List String
  warnings : List String
  errors : List String
  lastError : String
  value : JSVal
  extra : List (String × JSVal)

/-- `new AppStatus()` with no seed message: all lists empty,
`lastError` the empty string, `value` undefined, no extra properties. -/
def newAppStatus : AppStatus :=
  { _info := [], warnings := [], errors := [], lastError := "",
    value := JSVal.undef, extra := [] }

/-- `addError(msg, ...)`: push the adorned message onto `errors` and
record it as `lastError`.  The argument is the already-adorned message
string. -/
def addError (s : AppStatus) (adornedMsg : String) : AppStatus :=
  { s with errors := s.errors ++ [adornedMsg], lastError := adornedMsg }

/-- `addWarning(msg, ...)`: push the adorned message onto `warnings`. -/
def addWarning (s : AppStatus) (adornedMsg : String) : AppStatus :=
  { s with warnings := s.warnings ++ [adornedMsg] }

/-- `addInfo(msg, ...)`: push the adorned message onto `_info`. -/
def addInfo (s : AppStatus) (adornedMsg : String) : AppStatus :=
  { s with _info := s._info ++ [adornedMsg] }

/-- `addValue(val)`: set the payload field `value`. -/
def addValue (s : AppStatus) (val : JSVal) : AppStatus :=
  { s with value := val }

/-- `hasErrors()`: `this.errors.length > 0`. -/
def hasErrors (s : AppStatus) : Bool := decide (0 < s.errors.length)

/-- `ok()`: `! this.hasErrors()`. -/
def statusOk (s : AppStatus) : Bool := ! hasErrors s

/-- `clearErrors()`: `this.errors = []` and nothing else. -/
def clearErrors (s : AppStatus) : AppStatus := { s with errors := [] }

/-- `errorMsg()`: all error entries joined, or the empty string. -/
def errorMsg (s : AppStatus) : String :=
  if 0 < s.errors.length then "ERROR: " ++ String.intercalate "; " s.errors else ""

/-- `errMsg()`: alias for `errorMsg()`. -/
def errMsg (s : AppStatus) : String := errorMsg s

/-- `getValue()`: throws an `AppError` while errors are present, else
returns the `value` field. -/
def getValue (s : AppStatus) : Except String JSVal :=
  if hasErrors s then
    .error ("You must clear errors on status object before accessing value: " ++ errMsg s)
  else
    .ok s.value

/-- `hasValue()`: `this.value === undefined ? false : true`. -/
def hasValue (s : AppStatus) : Bool := ! s.value.isUndef

/-- C1: while `hasErrors()` is true, `getValue()` throws the
"errors unresolved" condition (the `AppError` whose message says the
errors must be cleared first), regardless of the payload; and when the
accumulator holds payload `v`, after `clearErrors()` a `getValue()`
call returns exactly `v`, unchanged. -/
theorem c1_getValue_gating (s : AppStatus) (v : JSVal)
    (herr : hasErrors s = true) (hv : s.value = v) :
    getValue s =
      .error ("You must clear errors on status object before accessing value: " ++ errMsg s)
    ∧ getValue (clearErrors s) = .ok v := by
  constructor
  · simp [getValue, herr]
  · simp [getValue, clearErrors, hasErrors, hv]

/-- Witness for C1 at a concrete accumulator: one error recorded and
payload 42. -/
theorem c1_getValue_gating_witness :
    getValue (addValue (addError newAppStatus "e1") (JSVal.num 42)) =
      .error ("You must clear errors on status object before accessing value: "
        ++ errMsg (addValue (addError newAppStatus "e1") (JSVal.num 42)))
    ∧ getValue (clearErrors (addValue (addError newAppStatus "e1") (JSVal.num 42))) =
      .ok (JSVal.num 42) :=
  c1_getValue_gating (addValue (addError newAppStatus "e1") (JSVal.num 42))
    (JSVal.num 42) (by rfl) (by rfl)

/-- C8: `clearErrors()` empties the error list and changes nothing
else: warnings, info, payload, and extra fields are untouched, and
`lastError` keeps its previous value — in particular, after
`addError` followed by `clearErrors`, `lastError` still holds the
cleared (stale) message. -/
theorem c8_clearErrors_only_errors :
    (∀ s : AppStatus,
      (clearErrors s).errors = []
      ∧ (clearErrors s).warnings = s.warnings
      ∧ (clearErrors s)._info = s._info
      ∧ (clearErrors s).value = s.value
      ∧ (clearErrors s).extra = s.extra
      ∧ (clearErrors s).lastError = s.lastError)
    ∧ ∀ (s : AppStatus) (msg : String),
      (clearErrors (addError s msg)).lastError = msg
      ∧ (clearErrors (addError s msg)).errors = [] := by
  refine ⟨fun s => ?_, fun s msg => ?_⟩
  · exact ⟨rfl, rfl, rfl, rfl, rfl, rfl⟩
  · exact ⟨rfl, rfl⟩

/-- The state of an `AppLogger` (`src/lib/index.js`, class
`AppLogger`): the component label, the verbosity level (`none` models
the JavaScript `undefined`, i.e. verbosity never configured — neither
`options.verbose` nor the `VERBOSE` environment variable was set — and
never assigned via `setVerbose`), and the set of enabled debug tags.
The diagnostic output stream is not part of the model; a logging call
is modelled by the decision it reaches (throw / emit / stay silent). -/
structure AppLogger where
  component : String
  verbose : Option Int
  debugTags : List String

/-- `new AppLogger(componentName, options)` where `options.verbose`
(resp. the `VERBOSE` environment variable) supplies `verbose`, and a
true `options.debug` enables the wildcard debug tag. -/
def mkAppLogger (componentName : String) (verbose : Option Int) (debug : Bool) : AppLogger :=
  { component := componentName,
    verbose := verbose,
    debugTags := if debug then ["*"] else [] }

/-- `setVerbose(val)`: `this.verbose = val`. -/
def setVerbose (logger : AppLogger) (val : Int) : AppLogger :=
  { logger with verbose := some val }

/-- `getVerbose()`: throws when `this.verbose === undefined`, else
returns the configured level. -/
def getVerbose (logger : AppLogger) : Except String Int :=
  match logger.verbose with
  | none => .error ("verbosity not set on logger '" ++ logger.component ++ "'")
  | some v => .ok v

/-- `v1(msg, ...)`: `if (this.getVerbose() > 0) this.commonOut('V1', ...)`.
The returned boolean tells whether the message was emitted through
`commonOut`; the error case is the thrown configuration error. -/
def v1 (logger : AppLogger) : Except String Bool := do
  let v ← getVerbose logger
  pure (decide (0 < v))

/-- `v2(msg, ...)`: `if (this.getVerbose() >= 2) this.commonOut('V2', ...)`. -/
def v2 (logger : AppLogger) : Except String Bool := do
  let v ← getVerbose logger
  pure (decide (2 ≤ v))

/-- `v3(msg, ...)`: `if (this.getVerbose() >= 3) this.commonOut('V3', ...)`. -/
def v3 (logger : AppLogger) : Except String Bool := do
  let v ← getVerbose logger
  pure (decide (3 ≤ v))

/-- `ifVerbose(msg, ...)` with `lvl = options.level ?? 1`: the gate is
`if (lvl <= this.verbose) this.commonOut(...)`.  It reads
`this.verbose` directly — it does NOT call `getVerbose()` — so when
verbosity is unconfigured the JavaScript comparison
`lvl <= undefined` evaluates to false and the call silently emits
nothing instead of throwing.  (The internal `l.ifDebug(...)` trace on
the module logger does not affect this decision.)  The result tells
whether the message was emitted. -/
def ifVerbose (logger : AppLogger) (lvl : Int) : Bool :=
  match logger.verbose with
  | none => false
  | some v => decide (lvl ≤ v)

/-- C2 (divergence record): on a logger whose verbosity was never set,
`v1`, `v2` and `v3` do throw the "verbosity not set" configuration
error, but the generic `ifVerbose(msg)` (default level 1) neither
throws nor emits — it is silently muted, contradicting the fail-fast
contract.  This theorem evaluates the code at that failing input. -/
theorem c2_unset_verbosity_ifVerbose_silent :
    v1 (mkAppLogger "x" none false) = .error "verbosity not set on logger 'x'"
    ∧ v2 (mkAppLogger "x" none false) = .error "verbosity not set on logger 'x'"
    ∧ v3 (mkAppLogger "x" none false) = .error "verbosity not set on logger 'x'"
    ∧ ifVerbose (mkAppLogger "x" none false) 1 = false
    ∧ ∀ lvl : Int, ifVerbose (mkAppLogger "x" none false) lvl = false := by
  refine ⟨rfl, rfl, rfl, rfl, fun lvl => rfl⟩

/-- C9: with verbosity explicitly set, `vN` emits exactly when the
configured level is at least `N`: at verbosity 0, `v1` emits nothing;
after `setVerbose(2)`, `v1` and `v2` emit but `v3` does not; and in
general `v1`/`v2`/`v3` on level `v` emit iff `1 ≤ v` / `2 ≤ v` /
`3 ≤ v`. -/
theorem c9_verbosity_ladder :
    v1 (mkAppLogger "c" (some 0) false) = .ok false
    ∧ v1 (setVerbose (mkAppLogger "c" (some 0) false) 2) = .ok true
    ∧ v2 (setVerbose (mkAppLogger "c" (some 0) false) 2) = .ok true
    ∧ v3 (setVerbose (mkAppLogger "c" (some 0) false) 2) = .ok false
    ∧ ∀ v : Int,
        v1 (mkAppLogger "c" (some v) false) = .ok (decide (1 ≤ v))
        ∧ v2 (mkAppLogger "c" (some v) false) = .ok (decide (2 ≤ v))
        ∧ v3 (mkAppLogger "c" (some v) false) = .ok (decide (3 ≤ v)) := by
  refine ⟨rfl, rfl, rfl, rfl, fun v => ⟨?_, rfl, rfl⟩⟩
  have h : decide (0 < v) = decide (1 ≤ v) := decide_eq_decide.mpr (by omega)
  exact congrArg Except.ok h

/-- One frame of the live call stack as produced by the `callsite`
package inside `numFramesInThisModule` and `adorn`: only the file name
(`getFileName()`) and line number (`getLineNumber()`) are consulted.
A stack is a `List CallFrame` with the deepest (most recent) frame
first; index `length - 1` is the outermost frame. -/
structure CallFrame where
  file : String
  line : Nat
deriving DecidableEq

/-- The loop of `numFramesInThisModule`: scan `frames[2..]` and stop at
the first frame whose file differs from `thisModule`; the result is the
number of leading frames that still match.  The early return `i + 1` of
the source and its fall-through return `frames.length - 1` are both
`1 +` this count. -/
def countSameModule (thisModule : String) : List CallFrame → Nat
  | [] => 0
  | f :: rest =>
    if f.file == thisModule then countSameModule thisModule rest + 1 else 0

/-- `numFramesInThisModule()` (`src/lib/index.js`): with fewer than two
frames (only its own frame, or an empty stack) it returns 0; otherwise
`frames[1]` is the immediate caller, whose file defines "this module",
and the result is `1 +` the number of frames after it that stay in the
same file. -/
def numFramesInThisModule (frames : List CallFrame) : Nat :=
  match frames with
  | [] => 0
  | [_] => 0
  | _ :: caller :: rest => 1 + countSameModule caller.file rest

/-- Modelled from the wording of the spec, for comparison with
`numFramesInThisModule`: the number of consecutive frames, starting
from the given frame list, whose source file equals `file`, stopping at
the first frame whose file differs or at stack exhaustion. -/
def specConsecutiveSameFile (file : String) (frames : List CallFrame) : Nat :=
  (frames.takeWhile (fun fr => fr.file == file)).length

/-- The takeWhile formulation agrees with the scan loop. -/
theorem countSameModule_eq_takeWhile (thisModule : String) (frames : List CallFrame) :
    countSameModule thisModule frames =
      (frames.takeWhile (fun fr => fr.file == thisModule)).length := by
  induction frames with
  | nil => rfl
  | cons f rest ih =>
    by_cases h : f.file == thisModule
    · simp [countSameModule, List.takeWhile, h, ih, Nat.add_comm]
    · simp only [Bool.not_eq_true] at h
      simp [countSameModule, List.takeWhile, h]

/-- C7 counterexample: the claim says the operation returns 0 whenever
the stack has fewer than two frames above the operation itself.  On the
two-frame stack below there is exactly one frame above the operation
(fewer than two), yet the code returns 1, not 0. -/
theorem c7_counterexample :
    ¬ ((List.length [CallFrame.mk "lib.js" 10, CallFrame.mk "caller.js" 5] - 1 < 2) →
        numFramesInThisModule [CallFrame.mk "lib.js" 10, CallFrame.mk "caller.js" 5] = 0) := by
  decide

/-- C7 (amended): `numFramesInThisModule` returns 0 only when the stack
has fewer than ONE frame above the operation itself (an empty or
one-frame stack); on any larger stack it returns the number of
consecutive frames, starting from the immediate caller, whose source
file equals the immediate caller's file, stopping at the first frame
whose file differs or at stack exhaustion. -/
theorem c7_numFramesInThisModule_spec :
    numFramesInThisModule [] = 0
    ∧ (∀ fr : CallFrame, numFramesInThisModule [fr] = 0)
    ∧ ∀ (op caller : CallFrame) (rest : List CallFrame),
        numFramesInThisModule (op :: caller :: rest) =
          specConsecutiveSameFile caller.file (caller :: rest) := by
  refine ⟨rfl, fun fr => rfl, fun op caller rest => ?_⟩
  simp [numFramesInThisModule, specConsecutiveSameFile, List.takeWhile,
    countSameModule_eq_takeWhile, Nat.add_comm]

/-- The frame selection performed by `adorn` (`src/lib/index.js`):
`callingFrameNum = 1 + extraFrames < frames.length ? 1 + extraFrames
: frames.length - 1`. -/
def callingFrameNum (extraFrames : Nat) (numFrames : Nat) : Nat :=
  if 1 + extraFrames < numFrames then 1 + extraFrames else numFrames - 1

/-- The call-site resolution of `adorn`: select the frame at
`callingFrameNum` and read its file and line.  `none` would model the
JavaScript `frames[i]` being `undefined`. -/
def resolveCallSite (extraFrames : Nat) (frames : List CallFrame) : Option CallFrame :=
  frames.get? (callingFrameNum extraFrames frames.length)

/-- C6: on any non-empty stack the selected frame index is in range, so
the resolved location is never undefined; and whenever the skip count
is at least the stack depth, the resolver clamps to the outermost
available frame (the last one, since the deepest frame is first). -/
theorem c6_resolveCallSite_clamps (frames : List CallFrame) (extraFrames : Nat)
    (hne : frames ≠ []) :
    (resolveCallSite extraFrames frames).isSome = true
    ∧ (frames.length ≤ extraFrames →
        resolveCallSite extraFrames frames = some (frames.getLast hne)) := by
  have hlen : 0 < frames.length := List.length_pos.mpr hne
  have hidx : callingFrameNum extraFrames frames.length < frames.length := by
    unfold callingFrameNum
    split
    · assumption
    · omega
  constructor
  · rw [resolveCallSite]
    simp only [List.get?_eq_getElem?]
    rw [List.getElem?_eq_getElem hidx]
    rfl
  · intro hskip
    have hnum : callingFrameNum extraFrames frames.length = frames.length - 1 := by
      unfold callingFrameNum
      split
      · omega
      · rfl
    rw [resolveCallSite, hnum]
    simp only [List.get?_eq_getElem?]
    rw [List.getElem?_eq_getElem (show frames.length - 1 < frames.length by omega)]
    congr 1
    rw [List.getLast_eq_getElem]

/-- Witness for C6 on a concrete two-frame stack with skip count 5. -/
theorem c6_resolveCallSite_clamps_witness :
    (resolveCallSite 5 [CallFrame.mk "a.js" 3, CallFrame.mk "b.js" 7]).isSome = true
    ∧ resolveCallSite 5 [CallFrame.mk "a.js" 3, CallFrame.mk "b.js" 7] =
        some (CallFrame.mk "b.js" 7) := by
  have h := c6_resolveCallSite_clamps [CallFrame.mk "a.js" 3, CallFrame.mk "b.js" 7] 5
    (by decide)
  exact ⟨h.1, by rw [h.2 (by decide)]; rfl⟩

/-- One step of the counting pass of `dedup` (`src/lib/index.js`): the
`Map` of counts is an insertion-ordered association list; a repeated
message bumps its count in place, a new message is appended with count
1 — exactly the JavaScript `Map.set` semantics. -/
def insertCount (counts : List (String × Nat)) (msg : String) : List (String × Nat) :=
  if counts.any (fun p => p.1 == msg) then
    counts.map (fun p => if p.1 == msg then (p.1, p.2 + 1) else p)
  else
    counts ++ [(msg, 1)]

/-- `dedup(msgs)`: count every message in first-seen order, then
rebuild the list with one entry per distinct message, suffixed with
`" (xN)"` when its count `N` exceeds 1.  (The source empties and
refills `msgs` in place; the model returns the rebuilt list.) -/
def dedup (msgs : List String) : List String :=
  (msgs.foldl insertCount []).map
    (fun p => if 1 < p.2 then p.1 ++ " (x" ++ toString p.2 ++ ")" else p.1)

/-- Modelled from the wording of the spec, for comparison with `dedup`:
the distinct messages of the input in first-seen order, skipping
anything already listed in `seen`. -/
def specFirstSeen (seen : List String) : List String → List String
  | [] => []
  | m :: ms =>
    if m ∈ seen then specFirstSeen seen ms
    else m :: specFirstSeen (seen ++ [m]) ms

/-- Whatever `specFirstSeen` lists was not in `seen`. -/
theorem specFirstSeen_not_mem_seen (msgs : List String) :
    ∀ (seen : List String) (k : String), k ∈ specFirstSeen seen msgs → k ∉ seen := by
  induction msgs with
  | nil => intro seen k hk; simp [specFirstSeen] at hk
  | cons m ms ih =>
    intro seen k hk
    by_cases hm : m ∈ seen
    · exact ih seen k (by simpa [specFirstSeen, hm] using hk)
    · rw [specFirstSeen, if_neg hm] at hk
      rcases List.mem_cons.mp hk with hkm | hk2
      · exact hkm ▸ hm
      · intro hks
        exact ih (seen ++ [m]) k hk2 (List.mem_append_left _ hks)

/-- On a pairwise-distinct input disjoint from `seen`, `specFirstSeen`
is the identity. -/
theorem specFirstSeen_of_nodup (msgs : List String) :
    ∀ seen : List String, msgs.Nodup → (∀ x ∈ msgs, x ∉ seen) →
      specFirstSeen seen msgs = msgs := by
  induction msgs with
  | nil => intro seen _ _; rfl
  | cons m ms ih =>
    intro seen hnd hdisj
    have hm : m ∉ seen := hdisj m (List.mem_cons_self m ms)
    rw [specFirstSeen, if_neg hm]
    congr 1
    refine ih (seen ++ [m]) (List.Nodup.of_cons hnd) ?_
    intro x hx hmem
    rcases List.mem_append.mp hmem with h1 | h2
    · exact hdisj x (List.mem_cons_of_mem m hx) h1
    · have hxm : x = m := by simpa using h2
      exact (List.nodup_cons.mp hnd).1 (hxm ▸ hx)

/-- Characterization of the counting pass: folding `insertCount` over
the messages extends the running counts by the total count of each
already-present key and appends the new keys in first-seen order, each
paired with its total count in the remaining input. -/
theorem foldl_insertCount_spec (msgs : List String) :
    ∀ counts : List (String × Nat),
      msgs.foldl insertCount counts =
        counts.map (fun p => (p.1, p.2 + msgs.count p.1))
        ++ (specFirstSeen (counts.map Prod.fst) msgs).map (fun k => (k, msgs.count k)) := by
  induction msgs with
  | nil =>
    intro counts
    simp [specFirstSeen]
  | cons m ms ih =>
    intro counts
    have hkeys : ∀ p : String × Nat, p ∈ counts → p.1 ∈ counts.map Prod.fst :=
      fun p hp => List.mem_map.mpr ⟨p, hp, rfl⟩
    have hcount_ne : ∀ k : String, k ≠ m → (m :: ms).count k = ms.count k := by
      intro k hkm
      exact List.count_cons_of_ne hkm ms
    have hcount_self : (m :: ms).count m = ms.count m + 1 := List.count_cons_self m ms
    by_cases hmem : m ∈ counts.map Prod.fst
    · have hany : counts.any (fun p => p.1 == m) = true := by
        rcases List.mem_map.mp hmem with ⟨p, hp, hpm⟩
        exact List.any_eq_true.mpr ⟨p, hp, by simp [hpm]⟩
      have hstep : insertCount counts m =
          counts.map (fun p => if p.1 == m then (p.1, p.2 + 1) else p) := by
        rw [insertCount, if_pos hany]
      have hfun : ((fun p : String × Nat => (p.1, p.2 + ms.count p.1)) ∘
          (fun p => if p.1 == m then (p.1, p.2 + 1) else p)) =
          fun p => (p.1, p.2 + (m :: ms).count p.1) := by
        funext p
        by_cases hpm : p.1 = m
        · subst hpm
          simp only [Function.comp, beq_self_eq_true, if_true, hcount_self, Prod.mk.injEq]
          exact ⟨trivial, by omega⟩
        · have hbeq : (p.1 == m) = false := by simp [hpm]
          simp only [Function.comp, hbeq, Bool.false_eq_true, if_false, hcount_ne p.1 hpm]
      have hkeys2 : (counts.map (fun p => if p.1 == m then (p.1, p.2 + 1) else p)).map
          Prod.fst = counts.map Prod.fst := by
        rw [List.map_map]
        refine List.map_congr_left ?_
        intro p _
        simp only [Function.comp]
        split <;> rfl
      rw [List.foldl_cons, hstep, ih, hkeys2]
      have hfirst : specFirstSeen (counts.map Prod.fst) (m :: ms)
          = specFirstSeen (counts.map Prod.fst) ms := by
        rw [specFirstSeen, if_pos hmem]
      rw [hfirst, List.map_map, hfun]
      congr 1
      refine List.map_congr_left ?_
      intro k hk
      have hknot : k ∉ counts.map Prod.fst := specFirstSeen_not_mem_seen ms _ k hk
      have hkm : k ≠ m := fun h => hknot (h ▸ hmem)
      rw [hcount_ne k hkm]
    · have hany : counts.any (fun p => p.1 == m) = false := by
        rw [Bool.eq_false_iff]
        intro hc
        rcases List.any_eq_true.mp hc with ⟨p, hp, hpm⟩
        exact hmem (List.mem_map.mpr ⟨p, hp, by simpa using hpm⟩)
      have hstep : insertCount counts m = counts ++ [(m, 1)] := by
        rw [insertCount, hany]
        rfl
      rw [List.foldl_cons, hstep, ih]
      have hkeys2 : (counts ++ [(m, 1)]).map Prod.fst = counts.map Prod.fst ++ [m] := by
        simp
      rw [hkeys2]
      have hfirst : specFirstSeen (counts.map Prod.fst) (m :: ms)
          = m :: specFirstSeen (counts.map Prod.fst ++ [m]) ms := by
        rw [specFirstSeen, if_neg hmem]
      rw [hfirst, List.map_append, List.append_assoc]
      congr 1
      · refine List.map_congr_left ?_
        intro p hp
        have hpm : p.1 ≠ m := fun h => hmem (h ▸ hkeys p hp)
        rw [hcount_ne p.1 hpm]
      · rw [List.map_cons]
        rw [List.map_cons, List.map_nil, List.singleton_append]
        congr 1
        · rw [hcount_self]
          simp only [Prod.mk.injEq]
          exact ⟨trivial, by omega⟩
        · refine (List.map_congr_left ?_)
          intro k hk
          have hknot : k ∉ counts.map Prod.fst ++ [m] :=
            specFirstSeen_not_mem_seen ms _ k hk
          have hkm : k ≠ m := fun h => hknot (List.mem_append_right _ (by simp [h]))
          rw [hcount_ne k hkm]

/-- `dedup` in closed form: one entry per distinct message, in
first-seen order, annotated with the total repeat count when above 1. -/
theorem dedup_eq_specFirstSeen (msgs : List String) :
    dedup msgs = (specFirstSeen [] msgs).map
      (fun k => if 1 < msgs.count k then k ++ " (x" ++ toString (msgs.count k) ++ ")" else k) := by
  rw [dedup, foldl_insertCount_spec msgs []]
  simp [List.map_map]

/-- C5: `dedup` on `["x","x","y"]` yields `["x (x2)","y"]`; on an empty
input it yields the empty list; on any pairwise-distinct input it is
the identity; and in general it lists each distinct text once, in
first-seen order, annotated with its repeat count exactly when that
count exceeds 1. -/
theorem c5_dedup_spec :
    dedup ["x", "x", "y"] = ["x (x2)", "y"]
    ∧ dedup [] = []
    ∧ (∀ msgs : List String, msgs.Nodup → dedup msgs = msgs)
    ∧ ∀ msgs : List String,
        dedup msgs = (specFirstSeen [] msgs).map
          (fun k => if 1 < msgs.count k then k ++ " (x" ++ toString (msgs.count k) ++ ")"
            else k) := by
  refine ⟨by decide, rfl, fun msgs hnd => ?_, dedup_eq_specFirstSeen⟩
  rw [dedup_eq_specFirstSeen]
  rw [specFirstSeen_of_nodup msgs [] hnd (by simp)]
  have : ∀ k ∈ msgs, (if 1 < msgs.count k then k ++ " (x" ++ toString (msgs.count k) ++ ")"
      else k) = k := by
    intro k hk
    rw [List.count_eq_one_of_mem hnd hk]
    simp
  rw [List.map_congr_left this]
  simp

/-- Witness for C5 at a concrete pairwise-distinct input. -/
theorem c5_dedup_spec_witness : dedup ["a", "b"] = ["a", "b"] :=
  c5_dedup_spec.2.2.1 ["a", "b"] (by decide)

/-- The own properties of an `AppStatus` object in JavaScript
property-insertion order: the five constructor-assigned fields
(`_info`, `warnings`, `errors`, `lastError`, `value`) followed by the
dynamically assigned extra properties.  List-of-string fields are
embedded as arrays of strings. -/
def ownProps (s : AppStatus) : List (String × JSVal) :=
  [("_info", JSVal.arr (s._info.map JSVal.str)),
   ("warnings", JSVal.arr (s.warnings.map JSVal.str)),
   ("errors", JSVal.arr (s.errors.map JSVal.str)),
   ("lastError", JSVal.str s.lastError),
   ("value", s.value)]
  ++ s.extra

/-- The `continue` conditions of the loop in `getExtraAttrs()`: a
property is kept unless its name is empty or starts with an
underscore, or is one of the reserved list names, or is `value` while
`this.value === undefined`. -/
def keepAttr (key : String) (v : JSVal) : Bool :=
  if key.length == 0 || (key.data.headD ' ' == '_') then false
  else if key == "_info" || key == "warnings" || key == "errors" || key == "lastError" then
    false
  else if key == "value" && v.isUndef then false
  else true

/-- `getExtraAttrs()`: walk the own properties in order and keep those
that pass `keepAttr` (the source inserts them into a fresh `Map`,
which, property names being unique, is this filtered list). -/
def getExtraAttrs (s : AppStatus) : List (String × JSVal) :=
  (ownProps s).filter (fun p => keepAttr p.1 p.2)

/-- Dynamic property assignment `this[key] = val` for the keys that
`getExtraAttrs` can produce: `value` targets the payload field, any
other key updates the extra-property list in place (JavaScript
assignment overwrites an existing property without moving it, and
appends a new one). -/
def setFieldDyn (s : AppStatus) (key : String) (v : JSVal) : AppStatus :=
  if key == "value" then { s with value := v }
  else if s.extra.any (fun p => p.1 == key) then
    { s with extra := s.extra.map (fun p => if p.1 == key then (p.1, v) else p) }
  else
    { s with extra := s.extra ++ [(key, v)] }

/-- The guard of `addStatus(other)` as the source spells it:
`if (! other instanceof AppStatus) throw ...`.  By JavaScript operator
precedence this parses as `(! other) instanceof AppStatus`, so the
tested value is a boolean, never an `AppStatus` instance. -/
def addStatusGuard (other : JSVal) : Bool :=
  instanceofAppStatus (jsNot other)

/-- `addStatus(other)` on an actual `AppStatus` argument (for which the
broken guard is irrelevant either way): concatenate the error, warning
and info lists, overwrite `lastError` when `other.lastError` is truthy
(a non-empty string), overwrite `value` when `other.value` is not
`undefined`, then copy every entry of `other.getExtraAttrs()` onto
`this`. -/
def addStatus (self other : AppStatus) : AppStatus :=
  let s1 := { self with errors := self.errors ++ other.errors }
  let s2 := if other.lastError == "" then s1 else { s1 with lastError := other.lastError }
  let s3 := { s2 with
    warnings := s2.warnings ++ other.warnings,
    _info := s2._info ++ other._info }
  let s4 := if other.value.isUndef then s3 else { s3 with value := other.value }
  (getExtraAttrs other).foldl (fun acc p => setFieldDyn acc p.1 p.2) s4

/-- `setFieldDyn` never touches the `errors` and `lastError` fields. -/
theorem setFieldDyn_preserves (s : AppStatus) (key : String) (v : JSVal) :
    (setFieldDyn s key v).errors = s.errors
    ∧ (setFieldDyn s key v).lastError = s.lastError := by
  unfold setFieldDyn
  split
  · exact ⟨rfl, rfl⟩
  · split
    · exact ⟨rfl, rfl⟩
    · exact ⟨rfl, rfl⟩

/-- Folding `setFieldDyn` over any list of properties never touches
`errors` and `lastError`. -/
theorem foldl_setFieldDyn_preserves (ps : List (String × JSVal)) :
    ∀ s : AppStatus,
      (ps.foldl (fun acc p => setFieldDyn acc p.1 p.2) s).errors = s.errors
      ∧ (ps.foldl (fun acc p => setFieldDyn acc p.1 p.2) s).lastError = s.lastError := by
  induction ps with
  | nil => intro s; exact ⟨rfl, rfl⟩
  | cons p ps ih =>
    intro s
    rw [List.foldl_cons]
    refine ⟨?_, ?_⟩
    · rw [(ih (setFieldDyn s p.1 p.2)).1, (setFieldDyn_preserves s p.1 p.2).1]
    · rw [(ih (setFieldDyn s p.1 p.2)).2, (setFieldDyn_preserves s p.1 p.2).2]

/-- C4 (divergence record): the merge-type guard of `addStatus` can
never fire.  The source tests `! other instanceof AppStatus`, which by
precedence negates `other` first and then asks whether the resulting
boolean is an `AppStatus` instance — false for every value whatsoever,
so the intended merge-type error is dead code and a non-accumulator
argument is never rejected by this check. -/
theorem c4_addStatus_guard_never_fires :
    (∀ other : JSVal, addStatusGuard other = false)
    ∧ addStatusGuard (JSVal.num 5) = false
    ∧ addStatusGuard (JSVal.obj [("errors", JSVal.arr [])]) = false := by
  refine ⟨fun other => ?_, rfl, rfl⟩
  rw [addStatusGuard, jsNot]
  cases jsTruthy other <;> rfl

/-- C3 counterexample: merging a fresh, empty accumulator `B` into a
fresh, empty accumulator `A` leaves `A.lastError` equal to
`B.lastError` (both are the empty string), yet `B` had no errors — so
the claimed equivalence "`A.lastError == B.lastError` after the merge
iff `B` had at least one error" is false. -/
theorem c3_counterexample :
    ¬ (((addStatus newAppStatus newAppStatus).lastError = newAppStatus.lastError)
        ↔ newAppStatus.errors ≠ []) := by
  intro h
  exact (h.mp (by decide)) rfl

/-- C3 (amended): after `addStatus`, the error list of the target is
its previous errors followed by the errors of the argument, in that
order; and `lastError` is overwritten by `other.lastError` exactly when
the latter is a non-empty string, otherwise it keeps its previous
value.  (The source keys the overwrite on the truthiness of
`other.lastError`, not on whether `other.errors` is non-empty, and the
two can disagree — e.g. after `clearErrors`, or between two empty
accumulators.) -/
theorem c3_addStatus_merge (a b : AppStatus) :
    (addStatus a b).errors = a.errors ++ b.errors
    ∧ (addStatus a b).lastError = (if b.lastError = "" then a.lastError else b.lastError) := by
  unfold addStatus
  refine ⟨?_, ?_⟩
  · rw [(foldl_setFieldDyn_preserves _ _).1]
    by_cases hle : b.lastError == ""
    · rw [if_pos hle]
      by_cases hv : b.value.isUndef <;> simp [hv]
    · rw [if_neg hle]
      by_cases hv : b.value.isUndef <;> simp [hv]
  · rw [(foldl_setFieldDyn_preserves _ _).2]
    by_cases hle : b.lastError = ""
    · have hbeq : (b.lastError == "") = true := by simp [hle]
      rw [if_pos hbeq, if_pos hle]
      by_cases hv : b.value.isUndef <;> simp [hv]
    · have hbeq : (b.lastError == "") = false := by simp [hle]
      rw [hbeq, if_neg hle]
      by_cases hv : b.value.isUndef <;> simp [hv]

/-- The `value` property survives the `getExtraAttrs` loop exactly when
the payload is not `undefined`. -/
theorem keepAttr_value (v : JSVal) : keepAttr "value" v = !v.isUndef := by
  cases v <;> rfl

/-- C10: `getExtraAttrs()` silently drops every own field whose name is
empty or begins with an underscore (beyond the reserved list names), so
a caller-attached underscore-named field is absent from the returned
mapping; and the designated payload field `value` appears in the
mapping exactly when it is not `undefined`. -/
theorem c10_getExtraAttrs_filter (s : AppStatus) (key : String)
    (hkey : key.length = 0 ∨ key.data.headD ' ' = '_')
    (hwf : "value" ∉ s.extra.map Prod.fst) :
    key ∉ (getExtraAttrs s).map Prod.fst
    ∧ ("value" ∈ (getExtraAttrs s).map Prod.fst ↔ s.value.isUndef = false) := by
  have hkeep : ∀ v : JSVal, keepAttr key v = false := by
    intro v
    have hcond : (key.length == 0 || (key.data.headD ' ' == '_')) = true := by
      simp only [Bool.or_eq_true, beq_iff_eq]
      rcases hkey with h | h
      · exact Or.inl h
      · right
        simpa using h
    unfold keepAttr
    rw [if_pos hcond]
  refine ⟨?_, ?_, ?_⟩
  · intro hmem
    obtain ⟨p, hp, hpk⟩ := List.mem_map.mp hmem
    obtain ⟨_, hpkeep⟩ := List.mem_filter.mp hp
    rw [hpk, hkeep p.2] at hpkeep
    exact Bool.false_ne_true hpkeep
  · intro hmem
    obtain ⟨p, hp, hpk⟩ := List.mem_map.mp hmem
    obtain ⟨hpo, hpkeep⟩ := List.mem_filter.mp hp
    rw [ownProps] at hpo
    rcases List.mem_append.mp hpo with h5 | hex
    · simp only [List.mem_cons, List.not_mem_nil, or_false] at h5
      rcases h5 with h | h | h | h | h
      · rw [h] at hpk
        exact absurd (show ("_info" : String) = "value" from hpk) (by decide)
      · rw [h] at hpk
        exact absurd (show ("warnings" : String) = "value" from hpk) (by decide)
      · rw [h] at hpk
        exact absurd (show ("errors" : String) = "value" from hpk) (by decide)
      · rw [h] at hpk
        exact absurd (show ("lastError" : String) = "value" from hpk) (by decide)
      · rw [h] at hpkeep
        rw [keepAttr_value] at hpkeep
        simpa using hpkeep
    · exact absurd (List.mem_map.mpr ⟨p, hex, hpk⟩) hwf
  · intro hv
    have hin : ("value", s.value) ∈ ownProps s := by
      rw [ownProps]
      exact List.mem_append_left _ (by simp)
    have hkeep2 : keepAttr "value" s.value = true := by
      rw [keepAttr_value, hv]
      rfl
    have hmem : ("value", s.value) ∈ getExtraAttrs s :=
      List.mem_filter.mpr ⟨hin, by simpa using hkeep2⟩
    exact List.mem_map.mpr ⟨_, hmem, rfl⟩

/-- Witness for C10: an accumulator with payload 2 and a caller-set
field `_hidden`; the underscore field is absent from the mapping while
`value` is present. -/
theorem c10_getExtraAttrs_filter_witness :
    "_hidden" ∉ (getExtraAttrs
        (AppStatus.mk [] [] [] "" (JSVal.num 2) [("_hidden", JSVal.num 1)])).map Prod.fst
    ∧ ("value" ∈ (getExtraAttrs
        (AppStatus.mk [] [] [] "" (JSVal.num 2) [("_hidden", JSVal.num 1)])).map Prod.fst
      ↔ (AppStatus.mk [] [] [] "" (JSVal.num 2) [("_hidden", JSVal.num 1)]).value.isUndef
          = false) :=
  c10_getExtraAttrs_filter
    (AppStatus.mk [] [] [] "" (JSVal.num 2) [("_hidden", JSVal.num 1)]) "_hidden"
    (Or.inr (by decide)) (by decide)
